import Mathlib

set_option maxHeartbeats 1000000

namespace CovidTracker

/-- Python exceptions relevant to the CovidTracker module, modelled as values:
the exception class together with its message arguments.  `ValueError` is a
single class, so date-format errors, absent-country errors and bad-int-literal
errors all share the `valueError` constructor and differ only in their
argument strings, exactly as in CPython.  `HTTPError` (a subclass of
`URLError`) is kept apart from plain `URLError` because the code catches
`urllib.error.HTTPError` specifically. -/
inductive PyExc where
  | valueError (args : List String)
  | httpError (url : String) (code : Nat)
  | urlError (reason : String)
  | indexError (msg : String)
deriving Repr, DecidableEq

/-- A Python computation that either returns normally or raises. -/
abbrev Exc (α : Type) := Except PyExc α

deriving instance DecidableEq for Except

/-- First-match lookup in an association list; models `d[k]` / `d.get(k)` /
`k in d.keys()` for a Python dict, which holds each key at most once. -/
def alook {β : Type} (k : String) : List (String × β) → Option β
  | [] => none
  | (k2, v) :: rest => if k = k2 then some v else alook k rest

/-- Replace the value of the first binding of key `k`, keeping its position;
models `d[k] = v` for a key already present (insertion order is kept). -/
def aset {β : Type} (k : String) (v : β) : List (String × β) → List (String × β)
  | [] => []
  | (k2, v2) :: rest => if k = k2 then (k, v) :: rest else (k2, v2) :: aset k v rest

/-- Insert-or-overwrite: models `d[k] = v` in general (append at the end when
the key is new), and likewise overwriting a cache file. -/
def aupd {β : Type} (k : String) (v : β) : List (String × β) → List (String × β)
  | [] => [(k, v)]
  | (k2, v2) :: rest => if k = k2 then (k, v) :: rest else (k2, v2) :: aupd k v rest

/-- Split a character list on a separator character; `str.split(sep)` for a
one-character separator (adjacent separators yield empty pieces). -/
def splitOnChar (sep : Char) : List Char → List (List Char)
  | [] => [[]]
  | c :: rest =>
    if c = sep then [] :: splitOnChar sep rest
    else
      match splitOnChar sep rest with
      | [] => [[c]]
      | p :: ps => (c :: p) :: ps

/-- Convert a count of days since 1970-01-01 to the proleptic Gregorian civil
date (year, month, day), the calendar `datetime.datetime` uses.  Standard
era-based algorithm; every intermediate value is non-negative here, so `Nat`
arithmetic agrees with integer arithmetic. -/
def daysToCivil (z0 : Nat) : Nat × Nat × Nat :=
  let z := z0 + 719468
  let era := z / 146097
  let doe := z % 146097
  let yoe := (doe - doe / 1460 + doe / 36524 - doe / 146096) / 365
  let y := yoe + era * 400
  let doy := doe - (365 * yoe + yoe / 4 - yoe / 100)
  let mp := (5 * doy + 2) / 153
  let d := doy - (153 * mp + 2) / 5 + 1
  let m := if mp < 10 then mp + 3 else mp - 9
  (if m ≤ 2 then y + 1 else y, m, d)

/-- Two-digit zero-padded decimal, as the strftime codes for month and day
produce for values below 100. -/
def pad2 (n : Nat) : List Char := [Nat.digitChar (n / 10), Nat.digitChar (n % 10)]

/-- Four-digit decimal, as the strftime year code produces for 1000-9999. -/
def pad4 (n : Nat) : List Char :=
  [Nat.digitChar (n / 1000), Nat.digitChar (n / 100 % 10),
   Nat.digitChar (n / 10 % 10), Nat.digitChar (n % 10)]

/-- The MM-DD-YYYY strftime output for month `m`, day `d`, 4-digit
year `y`. -/
def renderMDY (m d y : Nat) : String := ⟨pad2 m ++ '-' :: pad2 d ++ '-' :: pad4 y⟩

/-- `date.strftime` with the format string MM-DD-YYYY (codes m, d, Y), on a
date given as a day count since 1970-01-01. -/
def fmtDate (z : Nat) : String :=
  match daysToCivil z with
  | (y, m, d) => renderMDY m d y

/-- Decides the anchored regular expression used in `create_source_url` and
`get_data_for_date`: month 01-12, day 01-31, year 20xx, dash-separated. -/
def isCanonicalDate (s : String) : Bool :=
  match s.data with
  | [m1, m2, h1, d1, d2, h2, y1, y2, y3, y4] =>
    decide (((m1 = '0' ∧ '1' ≤ m2 ∧ m2 ≤ '9') ∨ (m1 = '1' ∧ (m2 = '0' ∨ m2 = '1' ∨ m2 = '2'))) ∧
      h1 = '-' ∧
      ((d1 = '0' ∧ '1' ≤ d2 ∧ d2 ≤ '9') ∨ ((d1 = '1' ∨ d1 = '2') ∧ d2.isDigit) ∨
        (d1 = '3' ∧ (d2 = '0' ∨ d2 = '1'))) ∧
      h2 = '-' ∧ y1 = '2' ∧ y2 = '0' ∧ y3.isDigit ∧ y4.isDigit)
  | _ => false

/-- Parser state of the character-level CSV reader: at the start of a field,
inside an unquoted field, inside a quoted field, or just after a closing
quote. -/
inductive CsvSt where
  | atStart
  | unquoted
  | quoted
  | afterQuote
deriving Repr, DecidableEq

/-- Record-terminator action of the CSV reader: a blank line yields an empty
record, otherwise the current field is closed and the record emitted. -/
def csvNl (st : CsvSt) (f : List Char) (r : List (List Char)) (acc : List (List (List Char))) :
    List (List (List Char)) :=
  if st = .atStart ∧ r = [] then acc ++ [[]] else acc ++ [r ++ [f]]

/-- Character-level model of `csv.reader` in its default dialect (delimiter
comma, double-quote quoting, doubled quotes inside a quoted field, non-strict
handling of stray quotes).  `csvGo cs st f r acc` processes the remaining
characters `cs` in state `st`, with current partial field `f`, the completed
fields `r` of the current record, and the completed records `acc`.  LF, CR
and CRLF all terminate a record outside quotes and are field content inside
quotes. -/
def csvGo : List Char → CsvSt → List Char → List (List Char) → List (List (List Char)) →
    List (List (List Char))
  | [], st, f, r, acc =>
    if st = .atStart ∧ r = [] then acc else acc ++ [r ++ [f]]
  | '\r' :: '\n' :: rest, .quoted, f, r, acc => csvGo rest .quoted (f ++ ['\r', '\n']) r acc
  | '\r' :: '\n' :: rest, st, f, r, acc => csvGo rest .atStart [] [] (csvNl st f r acc)
  | '\r' :: rest, .quoted, f, r, acc => csvGo rest .quoted (f ++ ['\r']) r acc
  | '\r' :: rest, st, f, r, acc => csvGo rest .atStart [] [] (csvNl st f r acc)
  | '\n' :: rest, .quoted, f, r, acc => csvGo rest .quoted (f ++ ['\n']) r acc
  | '\n' :: rest, st, f, r, acc => csvGo rest .atStart [] [] (csvNl st f r acc)
  | ',' :: rest, .quoted, f, r, acc => csvGo rest .quoted (f ++ [',']) r acc
  | ',' :: rest, _, f, r, acc => csvGo rest .atStart [] (r ++ [f]) acc
  | '"' :: rest, .atStart, f, r, acc => csvGo rest .quoted f r acc
  | '"' :: rest, .unquoted, f, r, acc => csvGo rest .unquoted (f ++ ['"']) r acc
  | '"' :: rest, .quoted, f, r, acc => csvGo rest .afterQuote f r acc
  | '"' :: rest, .afterQuote, f, r, acc => csvGo rest .quoted (f ++ ['"']) r acc
  | c :: rest, .quoted, f, r, acc => csvGo rest .quoted (f ++ [c]) r acc
  | c :: rest, _, f, r, acc => csvGo rest .unquoted (f ++ [c]) r acc

/-- `list(csv.reader(...))` over the full text: the list of records, each a
list of field strings. -/
def csvParse (s : String) : List (List String) :=
  (csvGo s.data .atStart [] [] []).map (fun r => r.map (fun f => (⟨f⟩ : String)))

/-- The derived per-date aggregate: a Python dict from country name to the
list of the four case counts, in insertion order. -/
abbrev DateAggregate := List (String × List Int)

/-- The on-disk cache directory: raw report files and derived JSON files,
each keyed by file name.  A binding models an existing file and its content
(a derived JSON file round-trips its string-to-int-list dict exactly). -/
structure FS where
  rawCache : List (String × List String)
  extCache : List (String × DateAggregate)
deriving Repr, DecidableEq

/-- The remote HTTP layer as seen through `urllib.request.urlopen` followed
by utf-8 decoding into lines: the text lines of the resource, or the
exception `urlopen` raises (`HTTPError` for an HTTP error status such as a
missing report, `URLError` for a transport failure). -/
abbrev Remote := String → Exc (List String)

/-- Message of the `ValueError` raised for a date string failing the
canonical-format check (sic: the message says MM-DD-YYY). -/
def invalidDateMsg : String :=
  "Invalid date format, must be MM-DD-YYY! Try using normalise_datetime()!"

/-- `pathlib.Path(url).name`: the final path component of the URL. -/
def urlFileName (url : String) : String := ⟨(splitOnChar '/' url.data).getLastD []⟩

/-- The URL string `create_source_url` builds for a date. -/
def sourceUrl (date_string : String) : String :=
  "https://raw.githubusercontent.com/CSSEGISandData/COVID-19/master" ++
    "/csse_covid_19_data/csse_covid_19_daily_reports/" ++ date_string ++ ".csv"

/-- `create_source_url(date_string)`: validate against the canonical-date
pattern, then build the raw-report URL. -/
def create_source_url (date_string : String) : Exc String :=
  if isCanonicalDate date_string then .ok (sourceUrl date_string)
  else .error (.valueError [invalidDateMsg])

/-- `get_source_file(url, force)`: return the cached raw file when present
and `force` is off; otherwise fetch from the remote and overwrite the cache
entry on success. -/
def get_source_file (remote : Remote) (fs : FS) (url : String) (force : Bool) :
    FS × Exc (List String) :=
  let filename := urlFileName url
  match (if force then none else alook filename fs.rawCache) with
  | some content => (fs, .ok content)
  | none =>
    match remote url with
    | .error e => (fs, .error e)
    | .ok lines => ({ fs with rawCache := aupd filename lines fs.rawCache }, .ok lines)

/-- `parse_source_data(source_data)`: join the lines and run the CSV reader
over the resulting buffer. -/
def parse_source_data (source_data : List String) : List (List String) :=
  csvParse (String.join source_data)

/-- Empty-field normalisation `"0" if s == "" else s`, applied to a whole CSV
entry. -/
def normEntry (e : List String) : List String :=
  e.map (fun s => if s = "" then "0" else s)

/-- Value of a decimal digit character. -/
def charVal (c : Char) : Option Nat :=
  if c = '0' then some 0 else if c = '1' then some 1 else if c = '2' then some 2
  else if c = '3' then some 3 else if c = '4' then some 4 else if c = '5' then some 5
  else if c = '6' then some 6 else if c = '7' then some 7 else if c = '8' then some 8
  else if c = '9' then some 9 else none

/-- Accumulating decimal evaluation of a digit string. -/
def digitsValGo : List Char → Nat → Option Nat
  | [], acc => some acc
  | c :: rest, acc =>
    match charVal c with
    | some d => digitsValGo rest (acc * 10 + d)
    | none => none

/-- Decimal value of a non-empty all-digit string. -/
def digitsVal (cs : List Char) : Option Nat :=
  if cs = [] then none else digitsValGo cs 0

/-- Integer value of a decimal literal with optional sign, as `int(s)`
accepts.  CPython additionally accepts surrounding whitespace and
underscores between digits; those corners are outside the modelled
fragment. -/
def strToInt? (s : String) : Option Int :=
  match s.data with
  | '-' :: rest => (digitsVal rest).map (fun n => -(n : Int))
  | '+' :: rest => (digitsVal rest).map (fun n => (n : Int))
  | cs => (digitsVal cs).map (fun n => (n : Int))

/-- `int(s)` on a decimal string, with the `ValueError` CPython raises on a
bad literal.  CPython quotes the literal in the message; the quotes are
omitted here. -/
def pyInt (s : String) : Exc Int :=
  match strToInt? s with
  | some n => .ok n
  | none => .error (.valueError ["invalid literal for int() with base 10: " ++ s])

/-- One iteration of the accumulation loop body
`data[country_name][i] += int(entry[starting_index + i])`, with the
IndexError / ValueError CPython raises when the entry or the stored list is
too short or the literal is bad. -/
def updTallyStep (entry : List String) (t : List Int) (i : Nat) : Exc (List Int) :=
  match entry[7 + i]? with
  | none => .error (.indexError "list index out of range")
  | some s =>
    match pyInt s with
    | .error e => .error e
    | .ok n =>
      match t[i]? with
      | none => .error (.indexError "list index out of range")
      | some v => .ok (t.set i (v + n))

/-- The four iterations `for i in range(number_of_field)` of the accumulation
loop. -/
def updTally (entry : List String) (t : List Int) : Exc (List Int) :=
  (List.range 4).foldlM (updTallyStep entry) t

/-- `list(map(int, fields))`: convert each field, raising at the first bad
literal, exactly as forcing Python's lazy `map` inside `list` does. -/
def pyIntList : List String → Exc (List Int)
  | [] => .ok []
  | s :: rest =>
    match pyInt s with
    | .error e => .error e
    | .ok n =>
      match pyIntList rest with
      | .error e => .error e
      | .ok ns => .ok (n :: ns)

/-- `list(map(int, entry[7:11]))`: the tally of a country seen for the first
time.  The slice is silently short for a short row. -/
def firstTally (entry : List String) : Exc (List Int) :=
  pyIntList ((entry.drop 7).take 4)

/-- The row loop of `extract_source_data`: normalise empty fields, key on
field 3, and accumulate field-wise into the dict. -/
def extractRows : List (List String) → DateAggregate → Exc DateAggregate
  | [], data => .ok data
  | e :: rest, data =>
    let entry := normEntry e
    match entry[3]? with
    | none => .error (.indexError "list index out of range")
    | some c =>
      match alook c data with
      | some t =>
        match updTally entry t with
        | .error err => .error err
        | .ok t2 => extractRows rest (aset c t2 data)
      | none =>
        match firstTally entry with
        | .error err => .error err
        | .ok t0 => extractRows rest (aupd c t0 data)

/-- Everything observable about one call to `extract_source_data`: the
caller's list after the call (the header `pop(0)` happens unconditionally and
before the cache check), the returned value or the exception raised, and the
content written to the cache file, when any. -/
structure ExtractOut where
  remaining : List (List String)
  result : Exc DateAggregate
  written : Option DateAggregate
deriving Repr, DecidableEq

/-- `extract_source_data(parsed_data, cache_file, force)`.  `cached` is the
content of the cache file when `cache_file` names an existing file and
`none` otherwise; `hasCacheFile` records whether a `cache_file` argument was
passed at all (the final write-back needs only the path). -/
def extract_source_data (parsed_data : List (List String)) (cached : Option DateAggregate)
    (hasCacheFile : Bool) (force : Bool) : ExtractOut :=
  match parsed_data with
  | [] => ⟨[], .error (.indexError "pop from empty list"), none⟩
  | _header :: rest =>
    match (if force then none else cached), hasCacheFile with
    | some a, true => ⟨rest, .ok a, none⟩
    | _, _ =>
      match extractRows rest [] with
      | .error e => ⟨rest, .error e, none⟩
      | .ok data => ⟨rest, .ok data, if hasCacheFile then some data else none⟩

/-- Derived-cache file name `extracted-MM-DD-YYYY.json` for a source URL. -/
def extractedKey (url : String) : String :=
  "extracted-" ++ (⟨(splitOnChar '.' (urlFileName url).data).headD []⟩ : String) ++ ".json"

/-- `get_data_for_date(date_string, force)`: validate the date, build the
URL, fetch (with raw cache), CSV-parse, and extract (with derived cache,
whose file is always passed here). -/
def get_data_for_date (remote : Remote) (fs : FS) (date_string : String) (force : Bool) :
    FS × Exc DateAggregate :=
  if isCanonicalDate date_string then
    match create_source_url date_string with
    | .error e => (fs, .error e)
    | .ok url =>
      match get_source_file remote fs url force with
      | (fs1, .error e) => (fs1, .error e)
      | (fs1, .ok lines) =>
        let parsed := parse_source_data lines
        let key := extractedKey url
        let out := extract_source_data parsed (alook key fs1.extCache) true force
        let fs2 := match out.written with
          | some r => { fs1 with extCache := aupd key r fs1.extCache }
          | none => fs1
        (fs2, out.result)
  else (fs, .error (.valueError [invalidDateMsg]))

/-- Dispatch on the per-day fetch result inside `get_country_data`: an
exception propagates, an aggregate lacking the country raises
`ValueError(country)`, and otherwise the tally is recorded and the loop
continues via `ih` on the next day. -/
def gcdHandle (country : String)
    (ih : Nat → FS → List (String × List Int) → FS × Exc (List (String × List Int)))
    (d : Nat) (acc : List (String × List Int)) :
    FS × Exc DateAggregate → FS × Exc (List (String × List Int))
  | (fs1, .error e) => (fs1, .error e)
  | (fs1, .ok data) =>
    match alook country data with
    | some t => ih (d + 1) fs1 (acc ++ [(fmtDate d, t)])
    | none => (fs1, .error (.valueError [country]))

/-- One iteration of the `get_country_data` day loop: fetch the day, then
dispatch. -/
def gcdStep (remote : Remote) (country : String)
    (ih : Nat → FS → List (String × List Int) → FS × Exc (List (String × List Int)))
    (d : Nat) (fs : FS) (acc : List (String × List Int)) :
    FS × Exc (List (String × List Int)) :=
  gcdHandle country ih d acc (get_data_for_date remote fs (fmtDate d) false)

/-- The day loop of `get_country_data`: `n` consecutive days starting at day
`d`, accumulating date-string/tally pairs in chronological order, aborting
with `ValueError(country)` at the first aggregate lacking the country. -/
def gcdLoop (remote : Remote) (country : String) (n : Nat) :
    Nat → FS → List (String × List Int) → FS × Exc (List (String × List Int)) :=
  Nat.rec
    (motive := fun _ => Nat → FS → List (String × List Int) → FS × Exc (List (String × List Int)))
    (fun _d fs acc => (fs, .ok acc))
    (fun _n ih => gcdStep remote country ih)
    n

/-- The end-date clamp `if end_date is None or end_date > latest_date:
end_date = latest_date`. -/
def clampEnd (latest : Nat) : Option Nat → Nat
  | none => latest
  | some ed => if latest < ed then latest else ed

/-- The start-date clamp `if start_date is None or start_date < origin_date:
start_date = origin_date`. -/
def clampStart (origin : Nat) : Option Nat → Nat
  | none => origin
  | some sd => if sd < origin then origin else sd

/-- `range((end_date - start_date).days + 1)` iteration count (empty when
the subtraction is negative). -/
def rangeLen (s e : Nat) : Nat := ((e : Int) - (s : Int) + 1).toNat

/-- `get_country_data(country, start_date, end_date)`.  Dates are day counts
since 1970-01-01; `latest` and `origin` are the module constants
`latest_date` and `origin_date`, injected instead of global. -/
def get_country_data (remote : Remote) (latest origin : Nat) (fs : FS) (country : String)
    (start_date end_date : Option Nat) : FS × Exc (List (String × List Int)) :=
  gcdLoop remote country
    (rangeLen (clampStart origin start_date) (clampEnd latest end_date))
    (clampStart origin start_date) fs []

/-- Dispatch on the per-day fetch result inside `cache_data`: an
`HTTPError` is swallowed and the walk continues via `ih` on the previous
day, any other exception aborts the walk at once, and a success also
continues; the lookup is counted in either continuing case. -/
def cacheHandle (ih : Nat → FS → FS × Exc Unit × Nat) (d : Nat) :
    FS × Exc DateAggregate → FS × Exc Unit × Nat
  | (fs1, .error (.httpError _ _)) =>
    match ih (d - 1) fs1 with
    | (fs2, r, k) => (fs2, r, k + 1)
  | (fs1, .error e) => (fs1, .error e, 1)
  | (fs1, .ok _) =>
    match ih (d - 1) fs1 with
    | (fs2, r, k) => (fs2, r, k + 1)

/-- One iteration of the `cache_data` walk: fetch the day, then dispatch. -/
def cacheStep (remote : Remote) (force : Bool) (ih : Nat → FS → FS × Exc Unit × Nat)
    (d : Nat) (fs : FS) : FS × Exc Unit × Nat :=
  cacheHandle ih d (get_data_for_date remote fs (fmtDate d) force)

/-- The walk of `cache_data`: `n` iterations starting at day `d` and going
backwards, swallowing `HTTPError` only; any other exception propagates at
once.  Also counts the `get_data_for_date` calls made. -/
def cacheLoop (remote : Remote) (force : Bool) (n : Nat) :
    Nat → FS → FS × Exc Unit × Nat :=
  Nat.rec
    (motive := fun _ => Nat → FS → FS × Exc Unit × Nat)
    (fun _d fs => (fs, .ok (), 0))
    (fun _n ih => cacheStep remote force ih)
    n

/-- `cache_data(no_of_days, force)`: clamp the day count so the backward walk
from `latest_date` stays after `origin_date`, then walk.  The `click.echo`
progress output is terminal I/O only and is not modelled. -/
def cache_data (remote : Remote) (latest origin : Nat) (no_of_days : Int) (force : Bool)
    (fs : FS) : FS × Exc Unit × Nat :=
  cacheLoop remote force
    (if ((latest : Int) - (origin : Int)) < no_of_days
      then (latest : Int) - (origin : Int) else no_of_days).toNat
    latest fs

/-- `get_new_changes(country, date)`: element-wise numpy subtraction
today minus yesterday over the two-day series from `get_country_data`; tuple
unpacking of `.values()` requires exactly two entries.  Numpy length-1
broadcasting is outside the modelled fragment: the model requires equal
lengths, which always holds for the tallies this module produces. -/
def get_new_changes (remote : Remote) (latest origin : Nat) (fs : FS) (country : String)
    (date : Nat) : FS × Exc (List Int) :=
  match get_country_data remote latest origin fs country (some (date - 1)) (some date) with
  | (fs1, .error e) => (fs1, .error e)
  | (fs1, .ok m) =>
    match m with
    | [(_, y), (_, t)] =>
      if y.length = t.length then (fs1, .ok (List.zipWith (fun a b => a - b) t y))
      else (fs1, .error (.valueError ["operands could not be broadcast together"]))
    | _ =>
      if m.length < 2 then
        (fs1, .error (.valueError ["not enough values to unpack (expected 2)"]))
      else (fs1, .error (.valueError ["too many values to unpack (expected 2)"]))

/-- Gregorian leap year. -/
def isLeap (y : Nat) : Bool := (y % 4 == 0 && y % 100 != 0) || y % 400 == 0

/-- Days in a month of a given year. -/
def daysInMonth (y m : Nat) : Nat :=
  if m = 2 then (if isLeap y then 29 else 28)
  else if m = 4 ∨ m = 6 ∨ m = 9 ∨ m = 11 then 30
  else 31

/-- Split a character list on dashes. -/
def splitDash : List Char → List (List Char) := splitOnChar '-'

/-- The fragment of `dateutil.parser.parse(s, dayfirst=True)` that this
module relies on (the external date-parsing capability with day-first
disambiguation): a numeric string of two dash-separated 1-2 digit fields
followed by a 4-digit year 1000-9999.  With `dayfirst` the first field is
taken as the day whenever that yields a valid calendar date; otherwise the
month-first reading is tried.  Returns (month, day, year). -/
def parseDayFirst (s : String) : Option (Nat × Nat × Nat) :=
  match splitDash s.data with
  | [fa, fb, fy] =>
    match digitsVal fa, digitsVal fb, digitsVal fy with
    | some a, some b, some y =>
      if fa.length ≤ 2 ∧ fb.length ≤ 2 ∧ fy.length = 4 ∧ 1000 ≤ y then
        if 1 ≤ b ∧ b ≤ 12 ∧ 1 ≤ a ∧ a ≤ daysInMonth y b then some (b, a, y)
        else if 1 ≤ a ∧ a ≤ 12 ∧ 1 ≤ b ∧ b ≤ daysInMonth y a then some (a, b, y)
        else none
      else none
    | _, _, _ => none
  | _ => none

/-- `normalise_datetime(date_string)`: parse with day-first disambiguation,
re-format with strftime as MM-DD-YYYY; a parse failure raises
`ValueError("Invalid date format")` (message without the inner quotes). -/
def normalise_datetime (s : String) : Exc String :=
  match parseDayFirst s with
  | some (m, d, y) => .ok (renderMDY m d y)
  | none => .error (.valueError ["Invalid date format"])

/-- Field-wise vector addition: `zipWith` addition on integer lists. -/
def vadd (a b : List Int) : List Int := List.zipWith (· + ·) a b

/-- The country key of a row: field 3 after empty-field normalisation. -/
def countryOf (e : List String) : String := ((normEntry e)[3]?).getD ""

/-- The numeric reading of a row: fields 7-10 after empty-field
normalisation, as integers. -/
def rowTally (e : List String) : List Int :=
  (((normEntry e).drop 7).take 4).map (fun s => (strToInt? s).getD 0)

/-- Field-wise sum of the tallies of all rows keyed by country `c`. -/
def sumFor (rows : List (List String)) (c : String) : List Int :=
  ((rows.filter (fun e => countryOf e == c)).map rowTally).foldr vadd [0, 0, 0, 0]

/-- Whether some row is keyed by country `c`. -/
def hasCountry (rows : List (List String)) (c : String) : Bool :=
  rows.any (fun e => countryOf e == c)

/-- A well-formed report row: at least the 11 fields the fixed schema needs,
and integer text (after empty-field normalisation) in the four tally
fields. -/
def wfRow (e : List String) : Prop :=
  11 ≤ e.length ∧ ∀ s ∈ ((normEntry e).drop 7).take 4, (strToInt? s).isSome

instance (e : List String) : Decidable (wfRow e) := by unfold wfRow; infer_instance

theorem alook_aset_self {β : Type} (k : String) (v : β) (l : List (String × β))
    (h : (alook k l).isSome) : alook k (aset k v l) = some v := by
  induction l with
  | nil => simp [alook] at h
  | cons p rest ih =>
    obtain ⟨k2, v2⟩ := p
    by_cases hk : k = k2
    · simp [alook, aset, hk]
    · simp only [alook, aset, if_neg hk] at h ⊢
      exact ih h

theorem alook_aset_ne {β : Type} (k c : String) (v : β) (l : List (String × β))
    (h : c ≠ k) : alook c (aset k v l) = alook c l := by
  induction l with
  | nil => simp [alook, aset]
  | cons p rest ih =>
    obtain ⟨k2, v2⟩ := p
    by_cases hk : k = k2
    · subst hk
      simp [alook, aset, if_neg h, ih]
    · by_cases hc : c = k2 <;> simp [alook, aset, if_neg hk, hc, ih]

theorem alook_aupd_self {β : Type} (k : String) (v : β) (l : List (String × β)) :
    alook k (aupd k v l) = some v := by
  induction l with
  | nil => simp [alook, aupd]
  | cons p rest ih =>
    obtain ⟨k2, v2⟩ := p
    by_cases hk : k = k2 <;> simp [alook, aupd, hk, ih]

theorem alook_aupd_ne {β : Type} {k c : String} (v : β) (l : List (String × β))
    (h : c ≠ k) : alook c (aupd k v l) = alook c l := by
  induction l with
  | nil => simp [alook, aupd, h]
  | cons p rest ih =>
    obtain ⟨k2, v2⟩ := p
    by_cases hk : k = k2
    · subst hk
      simp [alook, aupd, if_neg h, ih]
    · by_cases hc : c = k2 <;> simp [alook, aupd, if_neg hk, hc, ih]

theorem mem_aset {β : Type} {p : String × β} {k : String} {v : β} {l : List (String × β)}
    (h : p ∈ aset k v l) : p = (k, v) ∨ p ∈ l := by
  induction l with
  | nil => simp [aset] at h
  | cons q rest ih =>
    obtain ⟨k2, v2⟩ := q
    by_cases hk : k = k2
    · simp only [aset, if_pos hk, List.mem_cons] at h
      rcases h with h | h
      · exact Or.inl h
      · exact Or.inr (List.mem_cons_of_mem _ h)
    · simp only [aset, if_neg hk, List.mem_cons] at h
      rcases h with h | h
      · exact Or.inr (by simp [h])
      · rcases ih h with h2 | h2
        · exact Or.inl h2
        · exact Or.inr (List.mem_cons_of_mem _ h2)

theorem mem_aupd {β : Type} {p : String × β} {k : String} {v : β} {l : List (String × β)}
    (h : p ∈ aupd k v l) : p = (k, v) ∨ p ∈ l := by
  induction l with
  | nil =>
    simp [aupd] at h
    exact Or.inl h
  | cons q rest ih =>
    obtain ⟨k2, v2⟩ := q
    by_cases hk : k = k2
    · simp only [aupd, if_pos hk, List.mem_cons] at h
      rcases h with h | h
      · exact Or.inl h
      · exact Or.inr (List.mem_cons_of_mem _ h)
    · simp only [aupd, if_neg hk, List.mem_cons] at h
      rcases h with h | h
      · exact Or.inr (by simp [h])
      · rcases ih h with h2 | h2
        · exact Or.inl h2
        · exact Or.inr (List.mem_cons_of_mem _ h2)

theorem alook_mem {β : Type} {k : String} {l : List (String × β)} {v : β}
    (h : alook k l = some v) : (k, v) ∈ l := by
  induction l with
  | nil => simp [alook] at h
  | cons q rest ih =>
    obtain ⟨k2, v2⟩ := q
    by_cases hk : k = k2
    · simp only [alook, if_pos hk] at h
      subst hk
      cases Option.some.inj h
      simp
    · simp only [alook, if_neg hk] at h
      exact List.mem_cons_of_mem _ (ih h)

theorem vadd_assoc (a b c : List Int) : vadd (vadd a b) c = vadd a (vadd b c) := by
  induction a generalizing b c with
  | nil => simp [vadd]
  | cons x a ih =>
    cases b with
    | nil => simp [vadd]
    | cons y b =>
      cases c with
      | nil => simp [vadd]
      | cons z c =>
        have h2 := ih b c
        simp only [vadd] at h2
        simp [vadd, List.zipWith_cons_cons, add_assoc, h2]

theorem vadd_comm (a b : List Int) : vadd a b = vadd b a := by
  induction a generalizing b with
  | nil => cases b <;> simp [vadd]
  | cons x a ih =>
    cases b with
    | nil => simp [vadd]
    | cons y b =>
      have h2 := ih b
      simp only [vadd] at h2
      simp [vadd, List.zipWith_cons_cons, add_comm, h2]

instance : LeftCommutative vadd :=
  ⟨fun a b c => by rw [← vadd_assoc, vadd_comm a b, vadd_assoc]⟩

theorem len4_shape {α : Type} {l : List α} (h : l.length = 4) :
    ∃ a b c d, l = [a, b, c, d] := by
  rcases l with _ | ⟨a, _ | ⟨b, _ | ⟨c, _ | ⟨d, _ | ⟨x, tl⟩⟩⟩⟩⟩ <;> simp_all

theorem vadd_zero4 {t : List Int} (h : t.length = 4) : vadd t [0, 0, 0, 0] = t := by
  obtain ⟨a, b, c, d, rfl⟩ := len4_shape h
  simp [vadd]

theorem length_vadd (a b : List Int) : (vadd a b).length = min a.length b.length := by
  simp [vadd]

theorem sumFor_nil (c : String) : sumFor [] c = [0, 0, 0, 0] := rfl

theorem sumFor_cons_eq {e : List String} {rest : List (List String)} {c : String}
    (h : countryOf e = c) : sumFor (e :: rest) c = vadd (rowTally e) (sumFor rest c) := by
  simp [sumFor, List.filter_cons, h]

theorem sumFor_cons_ne {e : List String} {rest : List (List String)} {c : String}
    (h : ¬countryOf e = c) : sumFor (e :: rest) c = sumFor rest c := by
  simp [sumFor, List.filter_cons, h]

theorem hasCountry_cons (e : List String) (rest : List (List String)) (c : String) :
    hasCountry (e :: rest) c = (countryOf e == c || hasCountry rest c) := by
  simp [hasCountry]

theorem normEntry_length (e : List String) : (normEntry e).length = e.length := by
  simp [normEntry]

theorem fields_length {e : List String} (h : wfRow e) :
    (((normEntry e).drop 7).take 4).length = 4 := by
  have h1 := h.1
  have h2 : (normEntry e).length = e.length := normEntry_length e
  rw [List.length_take, List.length_drop, h2]
  omega

theorem rowTally_length {e : List String} (h : wfRow e) : (rowTally e).length = 4 := by
  simp only [rowTally, List.length_map]
  exact fields_length h

theorem country_getElem {e : List String} (h : wfRow e) :
    (normEntry e)[3]? = some (countryOf e) := by
  cases hx : (normEntry e)[3]? with
  | none =>
    rw [List.getElem?_eq_none_iff, normEntry_length] at hx
    have := h.1
    omega
  | some s => simp [countryOf, hx]

theorem pyIntList_ok {l : List String} (h : ∀ s ∈ l, (strToInt? s).isSome) :
    pyIntList l = .ok (l.map (fun s => (strToInt? s).getD 0)) := by
  induction l with
  | nil => rfl
  | cons s rest ih =>
    have hs := h s (List.mem_cons_self s rest)
    obtain ⟨n, hn⟩ := Option.isSome_iff_exists.mp hs
    have hr := ih (fun x hx => h x (List.mem_cons_of_mem _ hx))
    simp [pyIntList, pyInt, hn, hr]

theorem firstTally_wf {e : List String} (h : wfRow e) :
    firstTally (normEntry e) = .ok (rowTally e) := by
  simpa [firstTally, rowTally] using pyIntList_ok h.2

theorem updTally_wf {e : List String} {t : List Int} (h : wfRow e) (ht : t.length = 4) :
    updTally (normEntry e) t = .ok (vadd t (rowTally e)) := by
  obtain ⟨s0, s1, s2, s3, hf⟩ := len4_shape (fields_length h)
  obtain ⟨t0, t1, t2, t3, rfl⟩ := len4_shape ht
  have hget : ∀ i, i < 4 → (normEntry e)[7 + i]? = (((normEntry e).drop 7).take 4)[i]? := by
    intro i hi
    rw [List.getElem?_take_of_lt hi, List.getElem?_drop]
  have h7 : (normEntry e)[7 + 0]? = some s0 := by rw [hget 0 (by omega), hf]; rfl
  have h8 : (normEntry e)[7 + 1]? = some s1 := by rw [hget 1 (by omega), hf]; rfl
  have h9 : (normEntry e)[7 + 2]? = some s2 := by rw [hget 2 (by omega), hf]; rfl
  have h10 : (normEntry e)[7 + 3]? = some s3 := by rw [hget 3 (by omega), hf]; rfl
  have hw := h.2
  rw [hf] at hw
  have hs0 := hw s0 (by simp)
  have hs1 := hw s1 (by simp)
  have hs2 := hw s2 (by simp)
  have hs3 := hw s3 (by simp)
  obtain ⟨n0, hn0⟩ := Option.isSome_iff_exists.mp hs0
  obtain ⟨n1, hn1⟩ := Option.isSome_iff_exists.mp hs1
  obtain ⟨n2, hn2⟩ := Option.isSome_iff_exists.mp hs2
  obtain ⟨n3, hn3⟩ := Option.isSome_iff_exists.mp hs3
  have hrt : rowTally e = [n0, n1, n2, n3] := by
    simp [rowTally, hf, hn0, hn1, hn2, hn3]
  have hrange : List.range 4 = [0, 1, 2, 3] := rfl
  rw [updTally, hrange]
  simp only [List.foldlM_cons, List.foldlM_nil, updTallyStep, h7, h8, h9, h10, pyInt,
    hn0, hn1, hn2, hn3, hrt, vadd]
  rfl

theorem extractRows_spec : ∀ (rows : List (List String)) (data : DateAggregate),
    (∀ e ∈ rows, wfRow e) → (∀ p ∈ data, (p.2 : List Int).length = 4) →
    ∃ data2, extractRows rows data = .ok data2 ∧ (∀ p ∈ data2, p.2.length = 4) ∧
      ∀ c, alook c data2 =
        match alook c data with
        | some t => some (vadd t (sumFor rows c))
        | none => if hasCountry rows c then some (sumFor rows c) else none := by
  intro rows
  induction rows with
  | nil =>
    intro data _ hdata
    refine ⟨data, rfl, hdata, ?_⟩
    intro c
    cases hl : alook c data with
    | none => simp [hasCountry]
    | some t =>
      have ht := hdata _ (alook_mem hl)
      simp [sumFor_nil, vadd_zero4 ht]
  | cons e rest ih =>
    intro data hrows hdata
    have hwe : wfRow e := hrows e (List.mem_cons_self e rest)
    have hrest : ∀ x ∈ rest, wfRow x := fun x hx => hrows x (List.mem_cons_of_mem _ hx)
    cases halook : alook (countryOf e) data with
    | some t =>
      have ht4 : t.length = 4 := hdata _ (alook_mem halook)
      have hupd := updTally_wf hwe ht4
      have hdata1 : ∀ p ∈ aset (countryOf e) (vadd t (rowTally e)) data,
          (p.2 : List Int).length = 4 := by
        intro p hp
        rcases mem_aset hp with rfl | hp2
        · simp [length_vadd, ht4, rowTally_length hwe]
        · exact hdata p hp2
      obtain ⟨data2, heq, hlen, hchar⟩ :=
        ih (aset (countryOf e) (vadd t (rowTally e)) data) hrest hdata1
      refine ⟨data2, ?_, hlen, ?_⟩
      · simp only [extractRows, country_getElem hwe, halook, hupd]
        exact heq
      · intro c
        by_cases hc : c = countryOf e
        · subst hc
          have h1 : alook (countryOf e) (aset (countryOf e) (vadd t (rowTally e)) data) =
              some (vadd t (rowTally e)) :=
            alook_aset_self (countryOf e) _ data (by rw [halook]; rfl)
          rw [hchar (countryOf e), h1, halook, sumFor_cons_eq rfl]
          simp [vadd_assoc]
        · have h1 : alook c (aset (countryOf e) (vadd t (rowTally e)) data) = alook c data :=
            alook_aset_ne _ c _ data hc
          have hne : (countryOf e == c) = false := by
            simp only [beq_eq_false_iff_ne, ne_eq]
            exact fun h => hc h.symm
          rw [hchar c, h1, sumFor_cons_ne (fun h => hc h.symm), hasCountry_cons, hne]
          simp
    | none =>
      have hfirst := firstTally_wf hwe
      have hdata1 : ∀ p ∈ aupd (countryOf e) (rowTally e) data,
          (p.2 : List Int).length = 4 := by
        intro p hp
        rcases mem_aupd hp with rfl | hp2
        · simp [rowTally_length hwe]
        · exact hdata p hp2
      obtain ⟨data2, heq, hlen, hchar⟩ :=
        ih (aupd (countryOf e) (rowTally e) data) hrest hdata1
      refine ⟨data2, ?_, hlen, ?_⟩
      · simp only [extractRows, country_getElem hwe, halook, hfirst]
        exact heq
      · intro c
        by_cases hc : c = countryOf e
        · subst hc
          have h1 : alook (countryOf e) (aupd (countryOf e) (rowTally e) data) =
              some (rowTally e) :=
            alook_aupd_self (countryOf e) _ data
          rw [hchar (countryOf e), h1, halook, sumFor_cons_eq rfl, hasCountry_cons]
          simp
        · have h1 : alook c (aupd (countryOf e) (rowTally e) data) = alook c data :=
            alook_aupd_ne _ data hc
          have hne : (countryOf e == c) = false := by
            simp only [beq_eq_false_iff_ne, ne_eq]
            exact fun h => hc h.symm
          rw [hchar c, h1, sumFor_cons_ne (fun h => hc h.symm), hasCountry_cons, hne]
          simp

theorem sumFor_perm {rows1 rows2 : List (List String)} (hp : rows1.Perm rows2) (c : String) :
    sumFor rows1 c = sumFor rows2 c :=
  List.Perm.foldr_eq ((hp.filter _).map rowTally) _

theorem hasCountry_perm {rows1 rows2 : List (List String)} (hp : rows1.Perm rows2) (c : String) :
    hasCountry rows1 c = hasCountry rows2 c := by
  simp only [hasCountry]
  rw [Bool.eq_iff_iff]
  simp only [List.any_eq_true]
  constructor
  · rintro ⟨x, hx, hxx⟩
    exact ⟨x, hp.subset hx, hxx⟩
  · rintro ⟨x, hx, hxx⟩
    exact ⟨x, hp.symm.subset hx, hxx⟩

theorem extract_remaining_tail (pd : List (List String)) (cached : Option DateAggregate)
    (hcf force : Bool) : (extract_source_data pd cached hcf force).remaining = pd.tail := by
  cases pd with
  | nil => rfl
  | cons h rest =>
    simp only [extract_source_data, List.tail_cons]
    split
    · rfl
    · split <;> rfl

/-- **C1**: on a parsed report (header plus well-formed data rows, no cache
hit), `extract_source_data` returns the mapping whose entry for each
occurring country is the field-wise sum, over the rows whose country field
(index 3) equals that country, of the integer fields at offsets 7-10, empty
fields read as 0; absent countries are absent from the mapping. -/
theorem extract_source_data_sums (header : List String) (rows : List (List String))
    (hw : ∀ e ∈ rows, wfRow e) :
    ∃ data, (extract_source_data (header :: rows) none false false).result = .ok data ∧
      ∀ c, alook c data = if hasCountry rows c then some (sumFor rows c) else none := by
  obtain ⟨d2, he, _hl, hc⟩ := extractRows_spec rows [] hw (by intro p hp; simp at hp)
  refine ⟨d2, ?_, ?_⟩
  · simp [extract_source_data, he]
  · intro c
    have t1 := hc c
    simpa [alook] using t1

def hdr0 : List String :=
  ["FIPS", "Admin2", "Province_State", "Country_Region", "Last_Update",
   "Lat", "Long_", "Confirmed", "Deaths", "Recovered", "Active"]

def rowX1 : List String := ["", "", "", "X", "", "", "", "1", "2", "3", "4"]

def rowX2 : List String := ["", "", "", "X", "", "", "", "5", "", "", "1"]

def rowY : List String := ["", "", "", "Y", "", "", "", "7", "0", "0", "7"]

/-- C1 witness: the spec's synthetic report, two rows for country X with
tallies (1,2,3,4) and (5,0,0,1), the zeros of the second row given as empty
fields; the sum is X maps to (6,2,3,5). -/
theorem extract_source_data_sums_witness :
    (∀ e ∈ [rowX1, rowX2], wfRow e) ∧
    sumFor [rowX1, rowX2] "X" = [6, 2, 3, 5] ∧
    (∃ data, (extract_source_data (hdr0 :: [rowX1, rowX2]) none false false).result = .ok data ∧
      ∀ c, alook c data = if hasCountry [rowX1, rowX2] c then some (sumFor [rowX1, rowX2] c)
        else none) :=
  ⟨by decide, by decide, extract_source_data_sums hdr0 [rowX1, rowX2] (by decide)⟩

/-- **C7**: permuting the data rows of a one-day report (header kept first)
yields the same country-to-tally mapping. -/
theorem extract_source_data_perm (h1 h2 : List String) (rows1 rows2 : List (List String))
    (hp : rows1.Perm rows2) (hw : ∀ e ∈ rows1, wfRow e) :
    ∃ d1 d2, (extract_source_data (h1 :: rows1) none false false).result = .ok d1 ∧
      (extract_source_data (h2 :: rows2) none false false).result = .ok d2 ∧
      ∀ c, alook c d1 = alook c d2 := by
  have hw2 : ∀ e ∈ rows2, wfRow e := fun e he => hw e (hp.symm.subset he)
  obtain ⟨d1, he1, _l1, hc1⟩ := extractRows_spec rows1 [] hw (by intro p hp2; simp at hp2)
  obtain ⟨d2, he2, _l2, hc2⟩ := extractRows_spec rows2 [] hw2 (by intro p hp2; simp at hp2)
  refine ⟨d1, d2, ?_, ?_, ?_⟩
  · simp [extract_source_data, he1]
  · simp [extract_source_data, he2]
  · intro c
    have t1 := hc1 c
    have t2 := hc2 c
    simp only [alook] at t1 t2
    rw [t1, t2, sumFor_perm hp, hasCountry_perm hp]

/-- C7 witness: a three-row report (countries X, Y, X) against its reversal. -/
theorem extract_source_data_perm_witness :
    ([rowX1, rowY, rowX2].Perm [rowX2, rowY, rowX1]) ∧ (∀ e ∈ [rowX1, rowY, rowX2], wfRow e) ∧
    (∃ d1 d2, (extract_source_data (hdr0 :: [rowX1, rowY, rowX2]) none false false).result = .ok d1 ∧
      (extract_source_data (hdr0 :: [rowX2, rowY, rowX1]) none false false).result = .ok d2 ∧
      ∀ c, alook c d1 = alook c d2) :=
  ⟨by decide, by decide,
    extract_source_data_perm hdr0 hdr0 [rowX1, rowY, rowX2] [rowX2, rowY, rowX1]
      (by decide) (by decide)⟩

/-- **C10**: `extract_source_data` pops the header from the caller's list on
every call - the remaining list is always the tail, including on a
cache-hit call that returns the cached aggregate without aggregating - so a
second call on the same (already popped) list drops a data row. -/
theorem extract_source_data_pops (parsed_data : List (List String))
    (cached : Option DateAggregate) (hasCacheFile force : Bool) :
    (extract_source_data parsed_data cached hasCacheFile force).remaining = parsed_data.tail ∧
    (∀ h rest a, (extract_source_data (h :: rest) (some a) true false).result = .ok a ∧
      (extract_source_data (h :: rest) (some a) true false).remaining = rest) ∧
    (extract_source_data (extract_source_data parsed_data cached hasCacheFile force).remaining
        cached hasCacheFile force).remaining = parsed_data.tail.tail := by
  refine ⟨extract_remaining_tail _ _ _ _, ?_, ?_⟩
  · intro h rest a
    exact ⟨rfl, rfl⟩
  · rw [extract_remaining_tail, extract_remaining_tail]

theorem gsf_cache_hit (remote : Remote) (fs : FS) (url : String) (content : List String)
    (h : alook (urlFileName url) fs.rawCache = some content) :
    get_source_file remote fs url false = (fs, .ok content) := by
  simp [get_source_file, h]

theorem gsf_ok_state {remote : Remote} {fs fs1 : FS} {url : String} {force : Bool}
    {L : List String} (h : get_source_file remote fs url force = (fs1, .ok L)) :
    alook (urlFileName url) fs1.rawCache = some L ∧ fs1.extCache = fs.extCache := by
  simp only [get_source_file] at h
  split at h
  case h_1 c heq =>
    injection h with h1 h2
    injection h2 with h3
    subst h1
    subst h3
    cases force with
    | true => simp at heq
    | false =>
      simp only [Bool.false_eq_true, if_false] at heq
      exact ⟨heq, rfl⟩
  case h_2 heq =>
    split at h
    · injection h with h1 h2
      injection h2
    · injection h with h1 h2
      injection h2 with h3
      subst h1
      subst h3
      exact ⟨alook_aupd_self _ _ _, rfl⟩

theorem extract_ok_cases {parsed : List (List String)} {cached : Option DateAggregate}
    {a : DateAggregate} (h : (extract_source_data parsed cached true false).result = .ok a) :
    parsed ≠ [] ∧
    ((extract_source_data parsed cached true false).written = some a ∨
      ((extract_source_data parsed cached true false).written = none ∧ cached = some a)) := by
  cases parsed with
  | nil => simp [extract_source_data] at h
  | cons hd rest =>
    refine ⟨by simp, ?_⟩
    simp only [extract_source_data] at h ⊢
    split at h
    case h_1 x heq =>
      simp only at h
      injection h with h3
      subst h3
      refine Or.inr ⟨rfl, ?_⟩
      simpa using x
    case h_2 heq2 =>
      split at h
      · simp at h
      · simp only at h
        injection h with h3
        subst h3
        exact Or.inl (by simp)

theorem gdfd_repeat {remote : Remote} {fs fs1 : FS} {d : String} {a : DateAggregate}
    (h : get_data_for_date remote fs d false = (fs1, .ok a)) :
    get_data_for_date remote fs1 d false = (fs1, .ok a) := by
  by_cases hd : isCanonicalDate d = true
  case neg =>
    simp only [get_data_for_date, hd, Bool.false_eq_true, if_false] at h
    injection h with h1 h2
    injection h2
  case pos =>
    simp only [get_data_for_date, hd, if_true, create_source_url] at h ⊢
    rcases hg : get_source_file remote fs (sourceUrl d) false with ⟨fsa, r⟩
    rw [hg] at h
    cases r with
    | error e =>
      injection h with h1 h2
      injection h2
    | ok L =>
      obtain ⟨hraw, _hext⟩ := gsf_ok_state hg
      simp only at h
      have hfs2 := congrArg Prod.fst h
      have hres := congrArg Prod.snd h
      simp only at hfs2 hres
      obtain ⟨hne, hcases⟩ := extract_ok_cases hres
      have hstate : alook (extractedKey (sourceUrl d)) fs1.extCache = some a ∧
          fs1.rawCache = fsa.rawCache := by
        rcases hcases with hw | ⟨hw, hc⟩
        · rw [hw] at hfs2
          rw [← hfs2]
          exact ⟨alook_aupd_self _ _ _, rfl⟩
        · rw [hw] at hfs2
          rw [← hfs2]
          exact ⟨hc, rfl⟩
      rw [gsf_cache_hit remote fs1 (sourceUrl d) L (by rw [hstate.2]; exact hraw)]
      simp only
      rcases hp : parse_source_data L with _ | ⟨p, ps⟩
      · exact absurd hp hne
      · rw [hstate.1]
        simp [extract_source_data]

/-- **C3**: with `force` off, a raw-cache hit makes `get_source_file` return
the cached content with the state unchanged and without consulting the
remote at all (the result is the same for every remote); consequently a
repeated `get_data_for_date` call after a successful one returns the
identical aggregate and leaves the caches untouched. -/
theorem get_source_file_cache_hit_and_repeat :
    (∀ (remote remote2 : Remote) (fs : FS) (url : String) (content : List String),
      alook (urlFileName url) fs.rawCache = some content →
        get_source_file remote fs url false = (fs, .ok content) ∧
        get_source_file remote fs url false = get_source_file remote2 fs url false) ∧
    (∀ (remote : Remote) (fs fs1 : FS) (d : String) (a : DateAggregate),
      get_data_for_date remote fs d false = (fs1, .ok a) →
        get_data_for_date remote fs1 d false = (fs1, .ok a)) := by
  constructor
  · intro remote remote2 fs url content hhit
    refine ⟨gsf_cache_hit remote fs url content hhit, ?_⟩
    rw [gsf_cache_hit remote fs url content hhit, gsf_cache_hit remote2 fs url content hhit]
  · intro remote fs fs1 d a h
    exact gdfd_repeat h

theorem gcdLoop_zero (remote : Remote) (country : String) (d : Nat) (fs : FS)
    (acc : List (String × List Int)) : gcdLoop remote country 0 d fs acc = (fs, .ok acc) := rfl

theorem gcdLoop_succ (remote : Remote) (country : String) (n : Nat) :
    gcdLoop remote country (n + 1) = gcdStep remote country (gcdLoop remote country n) := rfl

theorem gcdStep_apply (remote : Remote) (country : String)
    (ih : Nat → FS → List (String × List Int) → FS × Exc (List (String × List Int)))
    (d : Nat) (fs : FS) (acc : List (String × List Int)) :
    gcdStep remote country ih d fs acc =
      gcdHandle country ih d acc (get_data_for_date remote fs (fmtDate d) false) := rfl

theorem gcdHandle_error (country : String)
    (ih : Nat → FS → List (String × List Int) → FS × Exc (List (String × List Int)))
    (d : Nat) (acc : List (String × List Int)) (fs1 : FS) (e : PyExc) :
    gcdHandle country ih d acc (fs1, .error e) = (fs1, .error e) := rfl

theorem gcdHandle_ok (country : String)
    (ih : Nat → FS → List (String × List Int) → FS × Exc (List (String × List Int)))
    (d : Nat) (acc : List (String × List Int)) (fs1 : FS) (data : DateAggregate) :
    gcdHandle country ih d acc (fs1, .ok data) =
      match alook country data with
      | some t => ih (d + 1) fs1 (acc ++ [(fmtDate d, t)])
      | none => (fs1, .error (.valueError [country])) := rfl

theorem gcdLoop_split_ok (remote : Remote) (country : String) (a b : Nat) :
    ∀ (d : Nat) (fs fs1 : FS) (acc acc1 : List (String × List Int)),
    gcdLoop remote country a d fs acc = (fs1, .ok acc1) →
    gcdLoop remote country (a + b) d fs acc = gcdLoop remote country b (d + a) fs1 acc1 := by
  induction a with
  | zero =>
    intro d fs fs1 acc acc1 hpre
    rw [gcdLoop_zero] at hpre
    injection hpre with h1 h2
    injection h2 with h3
    subst h1
    subst h3
    rw [Nat.zero_add, Nat.add_zero]
  | succ a ih =>
    intro d fs fs1 acc acc1 hpre
    have hnum : a + 1 + b = (a + b) + 1 := by omega
    rw [hnum, gcdLoop_succ, gcdStep_apply]
    rw [gcdLoop_succ, gcdStep_apply] at hpre
    generalize hr : get_data_for_date remote fs (fmtDate d) false = p at hpre ⊢
    obtain ⟨fsx, r⟩ := p
    cases r with
    | error e2 =>
      rw [gcdHandle_error] at hpre
      injection hpre with h1 h2
      injection h2
    | ok data =>
      rw [gcdHandle_ok] at hpre ⊢
      generalize hal : alook country data = o at hpre ⊢
      cases o with
      | some t =>
        have hpre2 : gcdLoop remote country a (d + 1) fsx (acc ++ [(fmtDate d, t)]) =
            (fs1, .ok acc1) := hpre
        have hgoal : gcdLoop remote country (a + b) (d + 1) fsx (acc ++ [(fmtDate d, t)]) =
            gcdLoop remote country b (d + (a + 1)) fs1 acc1 := by
          rw [ih (d + 1) fsx fs1 (acc ++ [(fmtDate d, t)]) acc1 hpre2]
          have harr : d + 1 + a = d + (a + 1) := by omega
          rw [harr]
        exact hgoal
      | none =>
        have hpre2 : ((fsx, Except.error (PyExc.valueError [country])) :
            FS × Exc (List (String × List Int))) = (fs1, Except.ok acc1) := hpre
        injection hpre2 with h1 h2
        injection h2

theorem gcdLoop_keys (remote : Remote) (country : String) :
    ∀ (n d : Nat) (fs : FS) (acc : List (String × List Int)) (fs2 : FS)
      (m : List (String × List Int)),
    gcdLoop remote country n d fs acc = (fs2, .ok m) →
    m.map Prod.fst = acc.map Prod.fst ++ (List.range n).map (fun i => fmtDate (d + i)) := by
  intro n
  induction n with
  | zero =>
    intro d fs acc fs2 m h
    rw [gcdLoop_zero] at h
    injection h with h1 h2
    injection h2 with h3
    subst h3
    simp
  | succ n ih =>
    intro d fs acc fs2 m h
    rw [gcdLoop_succ, gcdStep_apply] at h
    generalize hr : get_data_for_date remote fs (fmtDate d) false = p at h
    obtain ⟨fs1, r⟩ := p
    cases r with
    | error e2 =>
      rw [gcdHandle_error] at h
      injection h with h1 h2
      injection h2
    | ok data =>
      rw [gcdHandle_ok] at h
      generalize hal : alook country data = o at h
      cases o with
      | some t =>
        have h2 : gcdLoop remote country n (d + 1) fs1 (acc ++ [(fmtDate d, t)]) =
            (fs2, .ok m) := h
        rw [ih (d + 1) fs1 (acc ++ [(fmtDate d, t)]) fs2 m h2]
        have hadd : ∀ i : Nat, d + 1 + i = d + (i + 1) := fun i => by omega
        simp [List.range_succ_eq_map, List.map_map, Function.comp, hadd, Nat.succ_eq_add_one]
      | none =>
        have h2 : ((fs1, Except.error (PyExc.valueError [country])) :
            FS × Exc (List (String × List Int))) = (fs2, Except.ok m) := h
        injection h2 with h1 h2
        injection h2

/-- **C4**: `get_country_data` walks the clamped range in ascending order
and, at the first date whose aggregate lacks the requested country, raises
`ValueError(country)` carrying the country name, with the whole remaining
range abandoned; earlier successful dates do not mask the error. -/
theorem get_country_data_first_missing (remote : Remote) (latest origin : Nat)
    (fs fsk fs2 : FS) (country : String) (start_date end_date : Option Nat) (k : Nat)
    (acck : List (String × List Int)) (A : DateAggregate)
    (hk : k < rangeLen (clampStart origin start_date) (clampEnd latest end_date))
    (hpre : gcdLoop remote country k (clampStart origin start_date) fs [] = (fsk, .ok acck))
    (hday : get_data_for_date remote fsk (fmtDate (clampStart origin start_date + k)) false =
      (fs2, .ok A))
    (hmiss : alook country A = none) :
    get_country_data remote latest origin fs country start_date end_date =
      (fs2, .error (.valueError [country])) := by
  rw [get_country_data]
  have hn : rangeLen (clampStart origin start_date) (clampEnd latest end_date) =
      k + ((rangeLen (clampStart origin start_date) (clampEnd latest end_date) - k - 1) + 1) := by
    omega
  rw [hn, gcdLoop_split_ok remote country k _ (clampStart origin start_date) fs fsk [] acck hpre]
  rw [gcdLoop_succ, gcdStep_apply, hday, gcdHandle_ok, hmiss]

/-- **C5**: the bounds are clamped before iterating - a query whose start
precedes `origin_date` and whose end exceeds `latest_date` equals the
unbounded query, both bounds landing exactly on `origin_date` and
`latest_date` - and a successful walk covers every date of the closed
interval, in ascending order. -/
theorem get_country_data_clamps (remote : Remote) (latest origin : Nat) (fs : FS)
    (country : String) (s e : Nat) (hs : s < origin) (he : latest < e)
    (hol : origin ≤ latest) :
    get_country_data remote latest origin fs country (some s) (some e) =
      get_country_data remote latest origin fs country none none ∧
    clampStart origin (some s) = origin ∧ clampEnd latest (some e) = latest ∧
    (∀ (fs2 : FS) (m : List (String × List Int)),
      get_country_data remote latest origin fs country (some s) (some e) = (fs2, .ok m) →
      m.map Prod.fst = (List.range (latest + 1 - origin)).map (fun i => fmtDate (origin + i))) := by
  have hcs : clampStart origin (some s) = origin := by simp [clampStart, hs]
  have hce : clampEnd latest (some e) = latest := by simp [clampEnd, he]
  have hrl : rangeLen origin latest = latest + 1 - origin := by
    simp only [rangeLen]
    omega
  refine ⟨?_, hcs, hce, ?_⟩
  · rw [get_country_data, get_country_data, hcs, hce]
    rfl
  · intro fs2 m h
    rw [get_country_data, hcs, hce] at h
    have hkeys := gcdLoop_keys remote country (rangeLen origin latest) origin fs [] fs2 m h
    simpa [hrl] using hkeys

/-- **C6**: when the two-day range succeeds with consecutive tallies,
`get_new_changes` returns the field-wise difference of today minus
yesterday, and when `get_country_data` fails on either day the same
exception propagates unchanged. -/
theorem get_new_changes_delta (remote : Remote) (latest origin : Nat) (fs fs1 : FS)
    (country : String) (date : Nat) :
    (∀ (d1 d2 : String) (y t : List Int),
      get_country_data remote latest origin fs country (some (date - 1)) (some date) =
        (fs1, .ok [(d1, y), (d2, t)]) → y.length = t.length →
      get_new_changes remote latest origin fs country date =
        (fs1, .ok (List.zipWith (fun a b => a - b) t y))) ∧
    (∀ e2, get_country_data remote latest origin fs country (some (date - 1)) (some date) =
        (fs1, .error e2) →
      get_new_changes remote latest origin fs country date = (fs1, .error e2)) := by
  constructor
  · intro d1 d2 y t h hlen
    simp [get_new_changes, h, hlen]
  · intro e2 h
    simp [get_new_changes, h]

def linesX : List String := ["h1,h2\n", "a,b,c,X,e,f,g,1,2,3,4\n", "a,b,c,X,e,f,g,5,,,1\n"]

def remoteFixed : Remote := fun _ => .ok linesX

def fs0 : FS := ⟨[], []⟩

def fsRawOnly : FS := ⟨[("f.csv", ["x\n"])], []⟩

def fsAfterX : FS :=
  ⟨[("12-02-2020.csv", linesX)], [("extracted-12-02-2020.json", [("X", [6, 2, 3, 5])])]⟩

/-- C3 witness: a raw-cache hit returns the stored lines unchanged, and a
`get_data_for_date` call repeated after a successful one returns the same
aggregate from the caches. -/
theorem get_source_file_cache_hit_and_repeat_witness :
    get_source_file remoteFixed fsRawOnly "https://host/f.csv" false =
      (fsRawOnly, .ok ["x\n"]) ∧
    get_data_for_date remoteFixed fsAfterX "12-02-2020" false =
      (fsAfterX, .ok [("X", [6, 2, 3, 5])]) :=
  ⟨(get_source_file_cache_hit_and_repeat.1 remoteFixed remoteFixed fsRawOnly
      "https://host/f.csv" ["x\n"] (by decide)).1,
   get_source_file_cache_hit_and_repeat.2 remoteFixed fs0 fsAfterX "12-02-2020"
      [("X", [6, 2, 3, 5])] (by decide)⟩

def linesT : List String :=
  ["h\n", "a,b,c,Testland,e,f,g,1,0,0,1\n", "a,b,c,X,e,f,g,2,0,0,2\n"]

def linesNoT : List String := ["h\n", "a,b,c,X,e,f,g,2,0,0,2\n"]

def remoteT : Remote := fun u =>
  if urlFileName u = "12-03-2020.csv" then .ok linesNoT else .ok linesT

def fskT : FS :=
  ⟨[("12-02-2020.csv", linesT)],
   [("extracted-12-02-2020.json", [("Testland", [1, 0, 0, 1]), ("X", [2, 0, 0, 2])])]⟩

def fsT2 : FS :=
  ⟨[("12-02-2020.csv", linesT), ("12-03-2020.csv", linesNoT)],
   [("extracted-12-02-2020.json", [("Testland", [1, 0, 0, 1]), ("X", [2, 0, 0, 2])]),
    ("extracted-12-03-2020.json", [("X", [2, 0, 0, 2])])]⟩

/-- C4 witness: Testland is present on 12-02-2020, absent on 12-03-2020 and
present again later, yet the three-day query aborts on the second day with
`ValueError("Testland")`. -/
theorem get_country_data_first_missing_witness :
    get_country_data remoteT 18600 18598 fs0 "Testland" none none =
      (fsT2, .error (.valueError ["Testland"])) :=
  get_country_data_first_missing remoteT 18600 18598 fs0 fskT fsT2 "Testland" none none 1
    [("12-02-2020", [1, 0, 0, 1])] [("X", [2, 0, 0, 2])]
    (by decide) (by decide) (by decide) (by decide)

/-- C5 witness: origin 2020-12-02, latest 2020-12-03, queried from eight
days before origin to far after latest; the walk narrows to exactly the
two-day interval. -/
theorem get_country_data_clamps_witness :
    get_country_data remoteFixed 18599 18598 fs0 "X" (some 18590) (some 18700) =
      get_country_data remoteFixed 18599 18598 fs0 "X" none none ∧
    clampStart 18598 (some 18590) = 18598 ∧ clampEnd 18599 (some 18700) = 18599 ∧
    (∀ (fs2 : FS) (m : List (String × List Int)),
      get_country_data remoteFixed 18599 18598 fs0 "X" (some 18590) (some 18700) =
        (fs2, .ok m) →
      m.map Prod.fst = (List.range (18599 + 1 - 18598)).map (fun i => fmtDate (18598 + i))) :=
  get_country_data_clamps remoteFixed 18599 18598 fs0 "X" 18590 18700
    (by decide) (by decide) (by decide)

def linesD1 : List String := ["h\n", "a,b,c,X,e,f,g,10,1,2,3\n"]

def linesD2 : List String := ["h\n", "a,b,c,X,e,f,g,15,1,3,5\n"]

def remoteD : Remote := fun u =>
  if urlFileName u = "12-02-2020.csv" then .ok linesD1 else .ok linesD2

def fsD2 : FS :=
  ⟨[("12-02-2020.csv", linesD1), ("12-03-2020.csv", linesD2)],
   [("extracted-12-02-2020.json", [("X", [10, 1, 2, 3])]),
    ("extracted-12-03-2020.json", [("X", [15, 1, 3, 5])])]⟩

/-- C6 witness: consecutive tallies (10,1,2,3) and (15,1,3,5) give the
day-over-day change (5,0,1,2). -/
theorem get_new_changes_delta_witness :
    get_new_changes remoteD 18599 18598 fs0 "X" 18599 = (fsD2, .ok [5, 0, 1, 2]) :=
  (get_new_changes_delta remoteD 18599 18598 fs0 fsD2 "X" 18599).1 "12-02-2020" "12-03-2020"
    [10, 1, 2, 3] [15, 1, 3, 5] (by decide) (by decide)

theorem cacheLoop_zero (remote : Remote) (force : Bool) (d : Nat) (fs : FS) :
    cacheLoop remote force 0 d fs = (fs, .ok (), 0) := rfl

theorem cacheLoop_succ (remote : Remote) (force : Bool) (n : Nat) :
    cacheLoop remote force (n + 1) = cacheStep remote force (cacheLoop remote force n) := rfl

theorem cacheStep_apply (remote : Remote) (force : Bool) (ih : Nat → FS → FS × Exc Unit × Nat)
    (d : Nat) (fs : FS) :
    cacheStep remote force ih d fs =
      cacheHandle ih d (get_data_for_date remote fs (fmtDate d) force) := rfl

theorem cacheHandle_http (ih : Nat → FS → FS × Exc Unit × Nat) (d : Nat) (fs1 : FS)
    (u : String) (c : Nat) :
    cacheHandle ih d (fs1, .error (.httpError u c)) =
      ((ih (d - 1) fs1).1, (ih (d - 1) fs1).2.1, (ih (d - 1) fs1).2.2 + 1) := rfl

theorem cacheHandle_ok (ih : Nat → FS → FS × Exc Unit × Nat) (d : Nat) (fs1 : FS) (a : DateAggregate) :
    cacheHandle ih d (fs1, .ok a) =
      ((ih (d - 1) fs1).1, (ih (d - 1) fs1).2.1, (ih (d - 1) fs1).2.2 + 1) := rfl

theorem cacheHandle_value (ih : Nat → FS → FS × Exc Unit × Nat) (d : Nat) (fs1 : FS)
    (args : List String) :
    cacheHandle ih d (fs1, .error (.valueError args)) = (fs1, .error (.valueError args), 1) := rfl

theorem cacheHandle_url (ih : Nat → FS → FS × Exc Unit × Nat) (d : Nat) (fs1 : FS)
    (r : String) :
    cacheHandle ih d (fs1, .error (.urlError r)) = (fs1, .error (.urlError r), 1) := rfl

theorem cacheHandle_index (ih : Nat → FS → FS × Exc Unit × Nat) (d : Nat) (fs1 : FS)
    (msg : String) :
    cacheHandle ih d (fs1, .error (.indexError msg)) = (fs1, .error (.indexError msg), 1) := rfl

theorem cacheLoop_count_le (remote : Remote) (force : Bool) :
    ∀ (n d : Nat) (fs : FS), (cacheLoop remote force n d fs).2.2 ≤ n := by
  intro n
  induction n with
  | zero =>
    intro d fs
    rw [cacheLoop_zero]
  | succ n ih =>
    intro d fs
    rw [cacheLoop_succ, cacheStep_apply]
    generalize get_data_for_date remote fs (fmtDate d) force = p
    obtain ⟨fs1, r⟩ := p
    cases r with
    | ok a =>
      rw [cacheHandle_ok]
      exact Nat.succ_le_succ (ih (d - 1) fs1)
    | error e =>
      cases e with
      | httpError u c =>
        rw [cacheHandle_http]
        exact Nat.succ_le_succ (ih (d - 1) fs1)
      | valueError args =>
        rw [cacheHandle_value]
        exact Nat.succ_le_succ (Nat.zero_le n)
      | urlError r =>
        rw [cacheHandle_url]
        exact Nat.succ_le_succ (Nat.zero_le n)
      | indexError m =>
        rw [cacheHandle_index]
        exact Nat.succ_le_succ (Nat.zero_le n)

theorem cacheLoop_no_http (remote : Remote) (force : Bool) :
    ∀ (n d : Nat) (fs : FS) (u : String) (c : Nat),
    (cacheLoop remote force n d fs).2.1 ≠ .error (.httpError u c) := by
  intro n
  induction n with
  | zero =>
    intro d fs u c
    rw [cacheLoop_zero]
    simp
  | succ n ih =>
    intro d fs u c
    rw [cacheLoop_succ, cacheStep_apply]
    generalize get_data_for_date remote fs (fmtDate d) force = p
    obtain ⟨fs1, r⟩ := p
    cases r with
    | ok a =>
      rw [cacheHandle_ok]
      exact ih (d - 1) fs1 u c
    | error e =>
      cases e with
      | httpError u2 c2 =>
        rw [cacheHandle_http]
        exact ih (d - 1) fs1 u c
      | valueError args =>
        rw [cacheHandle_value]
        simp
      | urlError r =>
        rw [cacheHandle_url]
        simp
      | indexError m =>
        rw [cacheHandle_index]
        simp

theorem cacheLoop_split_ok (remote : Remote) (force : Bool) :
    ∀ (k m d : Nat) (fs fsk : FS) (c : Nat),
    cacheLoop remote force k d fs = (fsk, .ok (), c) →
    cacheLoop remote force (m + k) d fs =
      ((cacheLoop remote force m (d - k) fsk).1,
       (cacheLoop remote force m (d - k) fsk).2.1,
       (cacheLoop remote force m (d - k) fsk).2.2 + c) := by
  intro k
  induction k with
  | zero =>
    intro m d fs fsk c h
    rw [cacheLoop_zero] at h
    injection h with h1 h2
    injection h2 with h3 h4
    subst h1
    subst h4
    rfl
  | succ k ih =>
    intro m d fs fsk c h
    have hmk : m + (k + 1) = (m + k) + 1 := rfl
    rw [cacheLoop_succ, cacheStep_apply] at h
    rw [hmk, cacheLoop_succ, cacheStep_apply]
    generalize hr : get_data_for_date remote fs (fmtDate d) force = p at h ⊢
    obtain ⟨fs1, r⟩ := p
    cases r with
    | ok a =>
      rw [cacheHandle_ok] at h ⊢
      generalize hq : cacheLoop remote force k (d - 1) fs1 = q at h
      obtain ⟨fs2, r2, c2⟩ := q
      have h2x : ((fs2, r2, c2 + 1) : FS × Exc Unit × Nat) = (fsk, .ok (), c) := h
      injection h2x with h1 h2
      injection h2 with h3 h4
      subst h1
      subst h3
      subst h4
      have hd2 : d - 1 - k = d - (k + 1) := by omega
      rw [ih m (d - 1) fs1 fs2 c2 hq, hd2]
      rfl
    | error e =>
      cases e with
      | httpError u cd =>
        rw [cacheHandle_http] at h ⊢
        generalize hq : cacheLoop remote force k (d - 1) fs1 = q at h
        obtain ⟨fs2, r2, c2⟩ := q
        have h2x : ((fs2, r2, c2 + 1) : FS × Exc Unit × Nat) = (fsk, .ok (), c) := h
        injection h2x with h1 h2
        injection h2 with h3 h4
        subst h1
        subst h3
        subst h4
        have hd2 : d - 1 - k = d - (k + 1) := by omega
        rw [ih m (d - 1) fs1 fs2 c2 hq, hd2]
        rfl
      | valueError args =>
        rw [cacheHandle_value] at h
        injection h with h1 h2
        injection h2 with h3 h4
        injection h3
      | urlError rr =>
        rw [cacheHandle_url] at h
        injection h with h1 h2
        injection h2 with h3 h4
        injection h3
      | indexError msg =>
        rw [cacheHandle_index] at h
        injection h with h1 h2
        injection h2 with h3 h4
        injection h3

/-- **C8**: `cache_data(N)` performs at most N per-date lookups (the count
is first clamped so the backward walk stays after `origin_date`), never
returns a `RemoteNotFound`-style `HTTPError` (individually missing days are
swallowed and the walk continues), and any non-`HTTPError` exception at any
position of the walk - after any number of swallowed or successful days -
aborts the whole run at once with that exception, no further lookup made;
the success value is `()` (no return value). -/
theorem cache_data_bounds_and_swallows (remote : Remote) (latest origin : Nat) (n : Int)
    (force : Bool) (fs : FS) (hn : 0 ≤ n) :
    ((cache_data remote latest origin n force fs).2.2 : Int) ≤ n ∧
    (cache_data remote latest origin n force fs).2.2 ≤
      (min n ((latest : Int) - (origin : Int))).toNat ∧
    (∀ (u : String) (c : Nat),
      (cache_data remote latest origin n force fs).2.1 ≠ .error (.httpError u c)) ∧
    (∀ (k : Nat) (fsk fs2 : FS) (c : Nat) (e : PyExc),
      (k : Int) < min n ((latest : Int) - (origin : Int)) →
      cacheLoop remote force k latest fs = (fsk, .ok (), c) →
      get_data_for_date remote fsk (fmtDate (latest - k)) force = (fs2, .error e) →
      (∀ u cd, e ≠ .httpError u cd) →
      cache_data remote latest origin n force fs = (fs2, .error e, c + 1)) := by
  have hdays : (if ((latest : Int) - (origin : Int)) < n
      then (latest : Int) - (origin : Int) else n) = min n ((latest : Int) - (origin : Int)) := by
    rcases le_total n ((latest : Int) - (origin : Int)) with hle | hle
    · rw [if_neg (by omega), min_eq_left hle]
    · rcases eq_or_lt_of_le hle with heq | hlt
      · rw [← heq, if_neg (by omega), min_self]
      · rw [if_pos hlt, min_eq_right (by omega)]
  refine ⟨?_, ?_, ?_, ?_⟩
  · have h1 := cacheLoop_count_le remote force
      (if ((latest : Int) - (origin : Int)) < n
        then (latest : Int) - (origin : Int) else n).toNat latest fs
    rw [cache_data]
    rw [hdays] at h1 ⊢
    omega
  · have h1 := cacheLoop_count_le remote force
      (if ((latest : Int) - (origin : Int)) < n
        then (latest : Int) - (origin : Int) else n).toNat latest fs
    rw [cache_data, hdays]
    rw [hdays] at h1
    exact h1
  · intro u c
    rw [cache_data]
    exact cacheLoop_no_http remote force _ latest fs u c
  · intro k fsk fs2 c e hk hpre hday hne
    rw [cache_data, hdays]
    have hkN : k < (min n ((latest : Int) - (origin : Int))).toNat := by omega
    have hsplit : (min n ((latest : Int) - (origin : Int))).toNat =
        (((min n ((latest : Int) - (origin : Int))).toNat - k - 1) + 1) + k := by omega
    rw [hsplit, cacheLoop_split_ok remote force k _ latest fs fsk c hpre]
    rw [cacheLoop_succ, cacheStep_apply, hday]
    cases e with
    | httpError u cd => exact absurd rfl (hne u cd)
    | valueError args =>
      rw [cacheHandle_value]
      simp [Nat.add_comm]
    | urlError rr =>
      rw [cacheHandle_url]
      simp [Nat.add_comm]
    | indexError msg =>
      rw [cacheHandle_index]
      simp [Nat.add_comm]

def remoteMissing : Remote := fun u => .error (.httpError u 404)

/-- A remote whose day 12-04-2020 report exists and whose every other
request fails at the transport layer (`URLError`). -/
def remoteFlaky : Remote := fun u =>
  if u = sourceUrl "12-04-2020" then .ok linesX else .error (.urlError "connection reset")

/-- The cache state after one successful `get_data_for_date` on 12-04-2020
against `remoteFlaky`. -/
def fsFlaky : FS :=
  ⟨[("12-04-2020.csv", linesX)],
   [("extracted-12-04-2020.json", [("X", [6, 2, 3, 5])])]⟩

/-- C8 witness: against `remoteMissing` (every report missing) five
requested days over a two-day span are clamped to one lookup, the miss is
swallowed and the walk returns successfully; against `remoteFlaky` the
first day succeeds and the transport failure on the second, mid-walk
(position k = 1), aborts the whole run with that `URLError` after exactly
two lookups. -/
theorem cache_data_bounds_and_swallows_witness :
    ((0 : Int) ≤ 5) ∧
    cache_data remoteMissing 18599 18598 5 false fs0 = (fs0, .ok (), 1) ∧
    cacheLoop remoteFlaky false 1 18600 fs0 = (fsFlaky, .ok (), 1) ∧
    cache_data remoteFlaky 18600 18598 5 false fs0 =
      (fsFlaky, .error (.urlError "connection reset"), 2) ∧
    (((cache_data remoteFlaky 18600 18598 5 false fs0).2.2 : Int) ≤ 5 ∧
      (cache_data remoteFlaky 18600 18598 5 false fs0).2.2 ≤
        (min 5 ((18600 : Int) - (18598 : Int))).toNat ∧
      (∀ (u : String) (c : Nat),
        (cache_data remoteFlaky 18600 18598 5 false fs0).2.1 ≠ .error (.httpError u c)) ∧
      (∀ (k : Nat) (fsk fs2 : FS) (c : Nat) (e : PyExc),
        (k : Int) < min 5 ((18600 : Int) - (18598 : Int)) →
        cacheLoop remoteFlaky false k 18600 fs0 = (fsk, .ok (), c) →
        get_data_for_date remoteFlaky fsk (fmtDate (18600 - k)) false = (fs2, .error e) →
        (∀ u cd, e ≠ .httpError u cd) →
        cache_data remoteFlaky 18600 18598 5 false fs0 = (fs2, .error e, c + 1))) :=
  ⟨by decide, by decide, by decide, by decide,
    cache_data_bounds_and_swallows remoteFlaky 18600 18598 5 false fs0 (by decide)⟩

theorem charVal_lt {c : Char} {d : Nat} (h : charVal c = some d) : d < 10 := by
  unfold charVal at h
  split_ifs at h <;> simp_all <;> omega

theorem charVal_digitChar {d : Nat} (h : d < 10) : charVal (Nat.digitChar d) = some d := by
  interval_cases d <;> decide

theorem digitChar_ne_dash {d : Nat} (h : d < 10) : Nat.digitChar d ≠ '-' := by
  interval_cases d <;> decide

theorem pad2_len (x : Nat) : (pad2 x).length = 2 := rfl

theorem pad4_len (y : Nat) : (pad4 y).length = 4 := rfl

theorem pad2_no_dash {x : Nat} (h : x < 100) (c : Char) (hc : c ∈ pad2 x) : c ≠ '-' := by
  simp only [pad2, List.mem_cons, List.mem_singleton, List.not_mem_nil, or_false] at hc
  rcases hc with rfl | rfl
  · exact digitChar_ne_dash (by omega)
  · exact digitChar_ne_dash (by omega)

theorem pad4_no_dash {y : Nat} (h : y < 10000) (c : Char) (hc : c ∈ pad4 y) : c ≠ '-' := by
  simp only [pad4, List.mem_cons, List.mem_singleton, List.not_mem_nil, or_false] at hc
  rcases hc with rfl | rfl | rfl | rfl
  · exact digitChar_ne_dash (by omega)
  · exact digitChar_ne_dash (by omega)
  · exact digitChar_ne_dash (by omega)
  · exact digitChar_ne_dash (by omega)

theorem digitsVal_pad2 {x : Nat} (h : x < 100) : digitsVal (pad2 x) = some x := by
  have h1 : x / 10 < 10 := by omega
  have h2 : x % 10 < 10 := by omega
  simp [digitsVal, pad2, digitsValGo, charVal_digitChar h1, charVal_digitChar h2]
  omega

theorem digitsVal_pad4 {y : Nat} (h : y < 10000) : digitsVal (pad4 y) = some y := by
  have h1 : y / 1000 < 10 := by omega
  have h2 : y / 100 % 10 < 10 := by omega
  have h3 : y / 10 % 10 < 10 := by omega
  have h4 : y % 10 < 10 := by omega
  simp [digitsVal, pad4, digitsValGo, charVal_digitChar h1, charVal_digitChar h2,
    charVal_digitChar h3, charVal_digitChar h4]
  omega

theorem digitsValGo_lt : ∀ (cs : List Char) (acc v : Nat),
    digitsValGo cs acc = some v → v < (acc + 1) * 10 ^ cs.length := by
  intro cs
  induction cs with
  | nil =>
    intro acc v h
    simp only [digitsValGo] at h
    injection h with h2
    subst h2
    simp
  | cons c rest ih =>
    intro acc v h
    simp only [digitsValGo] at h
    cases hcv : charVal c with
    | none => rw [hcv] at h; exact absurd h (by simp)
    | some dd =>
      rw [hcv] at h
      have hd : dd < 10 := charVal_lt hcv
      have hv := ih (acc * 10 + dd) v h
      have hle : acc * 10 + dd + 1 ≤ (acc + 1) * 10 := by omega
      have hpow : ((acc + 1) * 10) * 10 ^ rest.length = (acc + 1) * 10 ^ (rest.length + 1) := by
        ring
      calc v < (acc * 10 + dd + 1) * 10 ^ rest.length := hv
        _ ≤ ((acc + 1) * 10) * 10 ^ rest.length := Nat.mul_le_mul_right _ hle
        _ = (acc + 1) * 10 ^ (rest.length + 1) := hpow
        _ = (acc + 1) * 10 ^ (c :: rest).length := by rw [List.length_cons]

theorem digitsVal_lt {cs : List Char} {v : Nat} (h : digitsVal cs = some v) :
    v < 10 ^ cs.length := by
  unfold digitsVal at h
  split at h
  · exact absurd h (by simp)
  · simpa using digitsValGo_lt cs 0 v h

theorem splitOnChar_front {sep : Char} : ∀ {A : List Char}, (∀ c ∈ A, c ≠ sep) →
    ∀ rest, splitOnChar sep (A ++ sep :: rest) = A :: splitOnChar sep rest := by
  intro A
  induction A with
  | nil =>
    intro _ rest
    simp [splitOnChar]
  | cons c A ih =>
    intro hA rest
    have hc : c ≠ sep := hA c (List.mem_cons_self c A)
    simp only [List.cons_append, splitOnChar, if_neg hc, List.append_eq]
    rw [ih (fun x hx => hA x (List.mem_cons_of_mem _ hx)) rest]

theorem splitOnChar_no_sep {sep : Char} : ∀ {C : List Char}, (∀ c ∈ C, c ≠ sep) →
    splitOnChar sep C = [C] := by
  intro C
  induction C with
  | nil => intro _; rfl
  | cons c C ih =>
    intro hC
    have hc : c ≠ sep := hC c (List.mem_cons_self c C)
    simp only [splitOnChar, if_neg hc]
    rw [ih (fun x hx => hC x (List.mem_cons_of_mem _ hx))]

theorem splitDash_render (m d y : Nat) (hm : m < 100) (hd : d < 100) (hy : y < 10000) :
    splitDash (pad2 m ++ '-' :: pad2 d ++ '-' :: pad4 y) = [pad2 m, pad2 d, pad4 y] := by
  show splitOnChar '-' (pad2 m ++ '-' :: (pad2 d ++ '-' :: pad4 y)) = [pad2 m, pad2 d, pad4 y]
  rw [splitOnChar_front (pad2_no_dash hm) (pad2 d ++ '-' :: pad4 y)]
  rw [splitOnChar_front (pad2_no_dash hd) (pad4 y)]
  rw [splitOnChar_no_sep (pad4_no_dash hy)]

theorem daysInMonth_le (y m : Nat) : daysInMonth y m ≤ 31 := by
  unfold daysInMonth
  split_ifs <;> omega

theorem le_daysInMonth (y m : Nat) : 28 ≤ daysInMonth y m := by
  unfold daysInMonth
  split_ifs <;> omega

theorem parseDayFirst_render {m d y : Nat} (hm1 : 1 ≤ m) (hm2 : m ≤ 12) (hd1 : 1 ≤ d)
    (hd2 : d ≤ 31) (hy1 : 1000 ≤ y) (hy2 : y ≤ 9999) :
    parseDayFirst (renderMDY m d y) =
      if 1 ≤ d ∧ d ≤ 12 ∧ 1 ≤ m ∧ m ≤ daysInMonth y d then some (d, m, y)
      else if 1 ≤ m ∧ m ≤ 12 ∧ 1 ≤ d ∧ d ≤ daysInMonth y m then some (m, d, y)
      else none := by
  unfold parseDayFirst renderMDY
  rw [show (String.mk (pad2 m ++ '-' :: pad2 d ++ '-' :: pad4 y)).data =
      pad2 m ++ '-' :: pad2 d ++ '-' :: pad4 y from rfl]
  rw [splitDash_render m d y (by omega) (by omega) (by omega)]
  simp only
  rw [digitsVal_pad2 (by omega : m < 100), digitsVal_pad2 (by omega : d < 100),
    digitsVal_pad4 (by omega : y < 10000)]
  simp only
  rw [if_pos ⟨le_of_eq (pad2_len m), le_of_eq (pad2_len d), pad4_len y, hy1⟩]

theorem parseDayFirst_sound {s : String} {m d y : Nat}
    (h : parseDayFirst s = some (m, d, y)) :
    1 ≤ m ∧ m ≤ 12 ∧ 1 ≤ d ∧ d ≤ daysInMonth y m ∧ 1000 ≤ y ∧ y ≤ 9999 ∧ d ≤ 31 := by
  unfold parseDayFirst at h
  split at h
  case h_2 => exact absurd h (by simp)
  case h_1 fa fb fy =>
    split at h
    case h_2 => exact absurd h (by simp)
    case h_1 a b y2 hfa hfb hfy =>
      split at h
      case isFalse => exact absurd h (by simp)
      case isTrue hlen =>
        have hy2lt : y2 < 10000 := by
          have := digitsVal_lt hfy
          rw [hlen.2.2.1] at this
          simpa using this
        split at h
        case isTrue hc1 =>
          injection h with h2
          have h3 : b = m := congrArg Prod.fst h2
          have h4 : a = d := congrArg (fun p => p.2.1) h2
          have h5 : y2 = y := congrArg (fun p => p.2.2) h2
          rw [← h3, ← h4, ← h5]
          exact ⟨hc1.1, hc1.2.1, hc1.2.2.1, hc1.2.2.2, hlen.2.2.2, by omega,
            le_trans hc1.2.2.2 (daysInMonth_le y2 b)⟩
        case isFalse =>
          split at h
          case isFalse => exact absurd h (by simp)
          case isTrue hc2 =>
            injection h with h2
            have h3 : a = m := congrArg Prod.fst h2
            have h4 : b = d := congrArg (fun p => p.2.1) h2
            have h5 : y2 = y := congrArg (fun p => p.2.2) h2
            rw [← h3, ← h4, ← h5]
            exact ⟨hc2.1, hc2.2.1, hc2.2.2.1, hc2.2.2.2, hlen.2.2.2, by omega,
              le_trans hc2.2.2.2 (daysInMonth_le y2 a)⟩

/-- Amended **C2**: `normalise_datetime` is not idempotent in general, but a
third application always agrees with the first: for every accepted input the
output oscillates with period at most two (one more application of
`normalise_datetime` to its own output may swap day and month when both are
at most 12, and applying it once more swaps them back). -/
theorem normalise_datetime_period_two (s x : String)
    (h : normalise_datetime s = .ok x) :
    ∃ y2, normalise_datetime x = .ok y2 ∧ normalise_datetime y2 = .ok x := by
  unfold normalise_datetime at h
  cases hp : parseDayFirst s with
  | none => rw [hp] at h; exact absurd h (by simp)
  | some t =>
    obtain ⟨m, d, y⟩ := t
    rw [hp] at h
    simp only at h
    injection h with h2
    subst h2
    obtain ⟨hm1, hm2, hd1, hdim, hy1, hy2, hd31⟩ := parseDayFirst_sound hp
    by_cases hc1 : 1 ≤ d ∧ d ≤ 12 ∧ 1 ≤ m ∧ m ≤ daysInMonth y d
    · refine ⟨renderMDY d m y, ?_, ?_⟩
      · unfold normalise_datetime
        rw [parseDayFirst_render hm1 hm2 hd1 hd31 hy1 hy2, if_pos hc1]
      · unfold normalise_datetime
        rw [parseDayFirst_render hd1 hc1.2.1 hm1 (by omega) hy1 hy2,
          if_pos ⟨hm1, hm2, hd1, hdim⟩]
    · refine ⟨renderMDY m d y, ?_, ?_⟩ <;>
      · unfold normalise_datetime
        rw [parseDayFirst_render hm1 hm2 hd1 hd31 hy1 hy2, if_neg hc1,
          if_pos ⟨hm1, hm2, hd1, hdim⟩]

/-- C2 witness: the spec's day-first scenario 25-12-2020 normalises to
12-25-2020, on which a further application is stable. -/
theorem normalise_datetime_period_two_witness :
    normalise_datetime "25-12-2020" = .ok "12-25-2020" ∧
    (∃ y2, normalise_datetime "12-25-2020" = .ok y2 ∧
      normalise_datetime y2 = .ok "12-25-2020") :=
  ⟨by decide, normalise_datetime_period_two "25-12-2020" "12-25-2020" (by decide)⟩

/-- C2 counterexample: 03-05-2021 normalises (day-first) to 05-03-2021, and
normalising that output gives 03-05-2021 back, not 05-03-2021 - so
`normalise_datetime` is not idempotent on its own output. -/
theorem normalise_datetime_not_idempotent :
    normalise_datetime "03-05-2021" = .ok "05-03-2021" ∧
    normalise_datetime "05-03-2021" = .ok "03-05-2021" ∧
    (Except.ok "03-05-2021" : Exc String) ≠ .ok "05-03-2021" := by decide

def remoteDown : Remote := fun _ => .error (.urlError "connection refused")

/-- **C9** (amended): of the pipeline's failure kinds, a missing remote
report surfaces as `HTTPError` carrying the URL and status code, a
transport failure as `URLError` carrying the reason, and both are
pairwise distinguishable from each other and from every `ValueError` by
constructor alone; but the invalid-date, absent-country and
malformed-source failures all surface as plain `ValueError`, so the
calling layer can tell those three apart only by their message payloads,
never by kind. -/
theorem pipeline_error_taxonomy :
    (get_data_for_date remoteMissing fs0 "12-02-2020" false).2
      = .error (.httpError (sourceUrl "12-02-2020") 404) ∧
    (get_data_for_date remoteDown fs0 "12-02-2020" false).2
      = .error (.urlError "connection refused") ∧
    (get_data_for_date remoteFixed fs0 "13-45-2020" false).2
      = .error (.valueError [invalidDateMsg]) ∧
    ∀ (u : String) (code : Nat) (r : String) (args : List String),
      PyExc.httpError u code ≠ PyExc.urlError r ∧
      PyExc.httpError u code ≠ PyExc.valueError args ∧
      PyExc.urlError r ≠ PyExc.valueError args :=
  ⟨by decide, by decide, by decide, fun u code r args =>
    ⟨fun h => PyExc.noConfusion h, fun h => PyExc.noConfusion h,
      fun h => PyExc.noConfusion h⟩⟩

/-- **C9** counterexample: the invalid-date failure and the absent-country
failure are not distinguishable by the calling layer. Both arrive as plain
`ValueError`, and when the requested country name happens to equal the
invalid-date message the two raised values coincide exactly: a malformed
date passed to `get_data_for_date` and a range query for that country via
`get_country_data` raise one and the same exception value. -/
theorem pipeline_errors_collide :
    (get_data_for_date remoteFixed fs0 "13-45-2020" false).2
      = .error (.valueError [invalidDateMsg]) ∧
    (get_country_data remoteFixed 18598 18598 fs0 invalidDateMsg
        (some 18598) (some 18598)).2
      = .error (.valueError [invalidDateMsg]) ∧
    (get_data_for_date remoteFixed fs0 "13-45-2020" false).2
      = (get_country_data remoteFixed 18598 18598 fs0 invalidDateMsg
          (some 18598) (some 18598)).2 := by
  refine ⟨by decide, by decide, by decide⟩

end CovidTracker
